import Mathlib

/-!
# Verification of the `obs-do` volume-fade client (`src/main.rs`)

A shallow embedding of the parts of `src/main.rs` that the specification's
claims are about:

* the volume-string parsing of the `FadeInput` arm (lines 153-162) and of the
  `SetVolume` arm (lines 213-218);
* the fade tick loop of the `FadeInput` arm (lines 164-203), with the remote
  `set_volume` boundary modelled as an oracle mapping each call index to
  `none` (success) or `some cause` (rejection, the cause being the remote
  error rendered as text);
* the credential-file resolution (lines 59-79), with the two filesystem
  operations (`try_exists`, `read_to_string`) modelled as `Except` inputs.

`f32` values are embedded as exact rationals (`ℚ`): the claims under study are
about the algorithm's structure (which calls are issued, in which order, when
the loop stops, which errors surface), not about binary rounding.  One caveat
is recorded where it matters: `f32` division by zero produces an infinity,
which `ℚ` cannot express, so every theorem touching the step division carries
a hypothesis keeping the parsed duration nonzero.

The Rust loop `while current_interim_volume > final_volume { ... }` need not
terminate (it does not, for a negative parsed duration), so the loop is
embedded with an explicit fuel parameter; a run that exhausts its fuel while
the loop guard still holds is reported as `RunResult.noFuel`, and genuine
non-termination is the statement that every fuel amount ends in `noFuel`.
-/

deriving instance DecidableEq for Except

namespace ObsDo

/-! ## String helpers (Rust standard library, at the embedding boundary) -/

/-- Rust `str::to_lowercase`, restricted to its ASCII behaviour (the inputs in
this development are ASCII).  Embedded characterwise to stay kernel-reducible. -/
def rustToLowercase (s : String) : String :=
  String.mk (s.data.map Char.toLower)

/-- Rust `str::strip_suffix`: `some` of the text with the suffix removed when
the string ends with it, `none` otherwise. -/
def rustStripSuffix (s suf : String) : Option String :=
  if suf.data.isSuffixOf s.data then
    some (String.mk (s.data.take (s.data.length - suf.data.length)))
  else none

/-- Rust `str::trim`, used on the credential file contents. -/
def rustTrim (s : String) : String :=
  s.trim

/-- Digit run to the natural number it denotes (most significant first). -/
def digitsToNat (l : List Char) : ℕ :=
  l.foldl (fun a c => a * 10 + (c.toNat - 48)) 0

/-- `true` iff every character is an ASCII digit. -/
def isDigits (l : List Char) : Bool :=
  l.all Char.isDigit

/-- Unsigned decimal: `Digit+ | Digit+ '.' Digit* | Digit* '.' Digit+`,
returning the exact rational value. -/
def parseDecimal (l : List Char) : Option ℚ :=
  match l.splitOn '.' with
  | [intPart] =>
      if intPart ≠ [] ∧ isDigits intPart then some (digitsToNat intPart : ℚ)
      else none
  | [intPart, fracPart] =>
      if (intPart ≠ [] ∨ fracPart ≠ []) ∧ isDigits intPart ∧ isDigits fracPart then
        some ((digitsToNat intPart : ℚ) + (digitsToNat fracPart : ℚ) / 10 ^ fracPart.length)
      else none
  | _ => none

/-- Modelled collaborator: Rust `str::parse::<f32>` restricted to plain decimal
notation (optional sign, digits, optional fractional part), returning the exact
rational value of the decimal.  Exponent notation and `inf`/`NaN` are not
modelled; every numeric literal exercised in this development is a plain
decimal, and every non-numeric input fails here exactly as it does in Rust. -/
def parseF32 (s : String) : Option ℚ :=
  match s.data with
  | [] => none
  | '-' :: rest => (parseDecimal rest).map Neg.neg
  | '+' :: rest => parseDecimal rest
  | l => parseDecimal l

/-! ## Data model -/

/-- `obws::requests::inputs::Volume`: an absolute volume in one of the two
scales the remote exposes. -/
inductive Volume where
  | Db (v : ℚ)
  | Mul (v : ℚ)
deriving DecidableEq

/-! ## The two volume-parsing paths -/

/-- Lines 153-162 (`FadeInput` arm): classify the volume string, and select the
current volume in the matching scale from the dual-scale `get_volume` reply
(`cur_db`, `cur_mul`).  Returns `(final_volume, current_volume, current_unit)`
or the `context` message attached to the parse failure. -/
def fadeVolumeParse (volume : String) (cur_db cur_mul : ℚ) :
    Except String (ℚ × ℚ × String) :=
  match rustStripSuffix (rustToLowercase volume) "db" with
  | some db =>
      match parseF32 db with
      | some v => .ok (v, cur_db, "db")
      | none => .error "ERR: Invalid dB value!\n"
  | none =>
      let volume_percentage := (rustStripSuffix volume "%").getD volume
      match parseF32 volume_percentage with
      | some v => .ok (v / 100, cur_mul, "perc")
      | none => .error "ERR: Invalid percentage value!\n"

/-- Lines 213-218 (`SetVolume` arm): note the source strips the literal
suffix `"dB"` from the already lower-cased string. -/
def setVolumeParse (volume : String) : Except String Volume :=
  match rustStripSuffix (rustToLowercase volume) "dB" with
  | some db =>
      match parseF32 db with
      | some v => .ok (.Db v)
      | none => .error "invalid dB quantity"
  | none =>
      let v := (rustStripSuffix volume "%").getD volume
      match parseF32 v with
      | some x => .ok (.Mul (x / 100))
      | none => .error "invalid % volume change"

/-! ## Fade loop constants (lines 144-146 and 169/187) -/

/-- Line 145: `tokio::time::Duration::from_millis(16)` — the scheduled tick
interval of the fade loop, in milliseconds. -/
def tickIntervalMillis : ℕ := 16

/-- Lines 169 and 187: the literal `60.0` dividing the volume difference
together with the duration (`volume_difference / (60.0 * duration)`). -/
def fadeTickDivisorHz : ℚ := 60

/-! ## Fade loop -/

/-- Observable outcome of one `FadeInput` run.  Each constructor carries the
`set_volume` payloads issued so far, in order (for `rpcError` the rejected
call is the last element). -/
inductive RunResult where
  /-- A `.context(...)?` failure while parsing the volume string (before any
  `set_volume` call). -/
  | parseError (msg : String)
  /-- A Rust `panic!` — either `duration.parse::<f32>().unwrap()` on a
  non-numeric duration, or the `_ => panic!()` arm of the unit match. -/
  | panicked (calls : List Volume)
  /-- A rejected `set_volume` call: the anyhow context string and the remote
  cause, surfaced through `?`. -/
  | rpcError (calls : List Volume) (context cause : String)
  /-- Normal completion of the `FadeInput` arm. -/
  | ok (calls : List Volume)
  /-- Fuel ran out while the loop guard still held (used to exhibit
  non-termination of the source loop). -/
  | noFuel (calls : List Volume)
deriving DecidableEq

/-- Lines 171-175 / 189-193: `match current_unit.as_str() { "db" => Volume::Db,
"perc" => Volume::Mul, _ => panic!() }`; `none` is the `panic!()` arm. -/
def packagedVolume (unit : String) (v : ℚ) : Option Volume :=
  match unit with
  | "db" => some (.Db v)
  | "perc" => some (.Mul v)
  | _ => none

/-- Lines 170-183: `while current_interim_volume > final_volume`, issuing one
`set_volume` per tick and then subtracting `volume_move_amount`.  `k` is the
index of the next `set_volume` call, `acc` the calls issued so far (reversed);
the `interval.tick().await` has no observable effect beyond scheduling and is
not modelled. -/
def fadeLoopDesc (input unit : String) (finalv step : ℚ)
    (oracle : ℕ → Option String) : ℕ → ℚ → ℕ → List Volume → RunResult
  | 0, interim, _, acc =>
      if finalv < interim then .noFuel acc.reverse else .ok acc.reverse
  | fuel + 1, interim, k, acc =>
      if finalv < interim then
        match packagedVolume unit interim with
        | none => .panicked acc.reverse
        | some p =>
            match oracle k with
            | some cause => .rpcError ((p :: acc).reverse) ("set-volume " ++ input) cause
            | none => fadeLoopDesc input unit finalv step oracle fuel (interim - step) (k + 1) (p :: acc)
      else .ok acc.reverse

/-- Lines 188-201: `while current_interim_volume < final_volume`, adding
`volume_move_amount` after each call. -/
def fadeLoopAsc (input unit : String) (finalv step : ℚ)
    (oracle : ℕ → Option String) : ℕ → ℚ → ℕ → List Volume → RunResult
  | 0, interim, _, acc =>
      if interim < finalv then .noFuel acc.reverse else .ok acc.reverse
  | fuel + 1, interim, k, acc =>
      if interim < finalv then
        match packagedVolume unit interim with
        | none => .panicked acc.reverse
        | some p =>
            match oracle k with
            | some cause => .rpcError ((p :: acc).reverse) ("set-volume " ++ input) cause
            | none => fadeLoopAsc input unit finalv step oracle fuel (interim + step) (k + 1) (p :: acc)
      else .ok acc.reverse

/-- Lines 137-204, the whole `Command::FadeInput` arm after the (successful)
dual-scale `get_volume` reply `(cur_db, cur_mul)`.  The `oracle` gives the
outcome of the `k`-th `set_volume` call.  Caveat: the source divides `f32`s,
where a zero divisor would produce an infinity; `ℚ` division by zero is `0`
instead, so theorems about the loop keep the parsed duration nonzero. -/
def fadeInput (input volume duration : String) (cur_db cur_mul : ℚ)
    (oracle : ℕ → Option String) (fuel : ℕ) : RunResult :=
  match fadeVolumeParse volume cur_db cur_mul with
  | .error msg => .parseError msg
  | .ok (final_volume, current_volume, current_unit) =>
      if final_volume < current_volume then
        match parseF32 duration with
        | none => .panicked []
        | some d =>
            fadeLoopDesc input current_unit final_volume
              ((current_volume - final_volume) / (fadeTickDivisorHz * d))
              oracle fuel current_volume 0 []
      else
        match parseF32 duration with
        | none => .panicked []
        | some d =>
            fadeLoopAsc input current_unit final_volume
              ((final_volume - current_volume) / (fadeTickDivisorHz * d))
              oracle fuel current_volume 0 []

/-! ## Credential resolution (lines 59-79) -/

/-- Observable outcome of the credential-file resolution. -/
inductive CredOutcome where
  /-- `Ok(true)` then a successful read: the trimmed contents are the password. -/
  | password (pw : String)
  /-- `Ok(false)`: password-less connection attempt. -/
  | noPassword
  /-- `Err(e)` from `try_exists`: `anyhow::bail!` with the typed message. -/
  | bailed (msg : String)
  /-- The `.unwrap()` on `read_to_string` fired. -/
  | panicked
deriving DecidableEq

/-- Lines 59-79: `try_exists` is modelled by `existsRes`, `read_to_string` by
`readRes` (both `Except` with the OS error rendered as text).  The source
calls `.unwrap()` on the read result. -/
def resolveCredential (existsRes : Except String Bool)
    (readRes : Except String String) : CredOutcome :=
  match existsRes with
  | .ok true =>
      match readRes with
      | .ok s => .password (rustTrim s)
      | .error _ => .panicked
  | .ok false => .noPassword
  | .error e =>
      .bailed ("Failed to read OBS WebSocket password file: " ++ e)

/-! ## Helper lemmas about the embedding -/

/-- The tagged volume a unit string packages to, for the two tags the source
can produce (lines 153-162 assign only `"db"` and `"perc"`). -/
def mkVolume (unit : String) (v : ℚ) : Volume :=
  if unit = "db" then .Db v else .Mul v

lemma packagedVolume_eq {unit : String} (hu : unit = "db" ∨ unit = "perc")
    (v : ℚ) : packagedVolume unit v = some (mkVolume unit v) := by
  rcases hu with h | h <;> subst h <;> rfl

/-- The fade-path parser only ever assigns the unit tags `"db"` and `"perc"`. -/
lemma fadeVolumeParse_unit {volume : String} {cur_db cur_mul : ℚ}
    {finalv current : ℚ} {unit : String}
    (h : fadeVolumeParse volume cur_db cur_mul = .ok (finalv, current, unit)) :
    unit = "db" ∨ unit = "perc" := by
  unfold fadeVolumeParse at h
  rcases hs : rustStripSuffix (rustToLowercase volume) "db" with _ | db
  · rw [hs] at h
    rcases hp : parseF32 ((rustStripSuffix volume "%").getD volume) with _ | v
    · simp [hp] at h
    · simp [hp] at h
      exact Or.inr h.2.2.symm
  · rw [hs] at h
    rcases hp : parseF32 db with _ | v
    · simp [hp] at h
    · simp [hp] at h
      exact Or.inl h.2.2.symm

/-- For a positive rational, taking the ceiling commutes with peeling one off. -/
lemma natCeil_pred {x : ℚ} (hx : 0 < x) : ⌈x⌉₊ = ⌈x - 1⌉₊ + 1 := by
  refine le_antisymm ?_ ?_
  · rw [Nat.ceil_le]
    push_cast
    have := Nat.le_ceil (x - 1)
    linarith
  · rw [Nat.add_one_le_ceil_iff]
    rcases le_or_lt x 1 with h | h
    · have h0 : ⌈x - 1⌉₊ = 0 := Nat.ceil_eq_zero.mpr (by linarith)
      rw [h0]
      exact_mod_cast hx
    · have h0 : (0 : ℚ) ≤ x - 1 := by linarith
      have h1 := Nat.ceil_lt_add_one h0
      push_cast at h1 ⊢
      linarith

/-- Closed form of the descending loop when every remote call succeeds: the
loop issues exactly `⌈(start - finalv) / step⌉₊` calls, at the successive
interim values `start - n·step`, and returns `ok`. -/
lemma fadeLoopDesc_ok (input : String) {unit : String}
    (hu : unit = "db" ∨ unit = "perc") (finalv : ℚ) {step : ℚ} (hstep : 0 < step)
    {oracle : ℕ → Option String} (hor : ∀ i, oracle i = none) (fuel : ℕ) :
    ∀ (start : ℚ) (k : ℕ) (acc : List Volume),
      ⌈(start - finalv) / step⌉₊ ≤ fuel →
      fadeLoopDesc input unit finalv step oracle fuel start k acc =
        .ok (acc.reverse ++ (List.range ⌈(start - finalv) / step⌉₊).map
          (fun n : ℕ => mkVolume unit (start - (n : ℚ) * step))) := by
  induction fuel with
  | zero =>
    intro start k acc hfuel
    have h0 : ⌈(start - finalv) / step⌉₊ = 0 := Nat.le_zero.mp hfuel
    have hle : ¬ finalv < start := by
      intro hlt
      have hpos : 0 < (start - finalv) / step := div_pos (by linarith) hstep
      have := Nat.ceil_pos.mpr hpos
      omega
    simp [fadeLoopDesc, hle, h0]
  | succ fuel ih =>
    intro start k acc hfuel
    by_cases hlt : finalv < start
    · have hxpos : 0 < (start - finalv) / step := div_pos (by linarith) hstep
      have hsucc := natCeil_pred hxpos
      have hshift : (start - step - finalv) / step = (start - finalv) / step - 1 := by
        rw [show start - step - finalv = start - finalv - step by ring,
          sub_div, div_self hstep.ne']
      have hfuel' : ⌈(start - step - finalv) / step⌉₊ ≤ fuel := by
        rw [hshift]
        omega
      have hrec := ih (start - step) (k + 1) (mkVolume unit start :: acc) hfuel'
      simp only [fadeLoopDesc, if_pos hlt, packagedVolume_eq hu, hor]
      rw [hrec, hshift, hsucc, List.range_succ_eq_map]
      simp only [List.map_cons, List.map_map, List.reverse_cons, List.append_assoc,
        List.cons_append, List.nil_append, Nat.cast_zero, zero_mul, sub_zero]
      refine congrArg _ (congrArg _ (congrArg _ ?_))
      apply List.map_congr_left
      intro n _
      simp only [Function.comp_apply]
      congr 1
      push_cast
      ring
    · have h0 : ⌈(start - finalv) / step⌉₊ = 0 := by
        refine Nat.ceil_eq_zero.mpr ?_
        exact div_nonpos_iff.mpr (Or.inr ⟨by linarith, hstep.le⟩)
      simp [fadeLoopDesc, hlt, h0]

/-- Closed form of the ascending loop when every remote call succeeds. -/
lemma fadeLoopAsc_ok (input : String) {unit : String}
    (hu : unit = "db" ∨ unit = "perc") (finalv : ℚ) {step : ℚ} (hstep : 0 < step)
    {oracle : ℕ → Option String} (hor : ∀ i, oracle i = none) (fuel : ℕ) :
    ∀ (start : ℚ) (k : ℕ) (acc : List Volume),
      ⌈(finalv - start) / step⌉₊ ≤ fuel →
      fadeLoopAsc input unit finalv step oracle fuel start k acc =
        .ok (acc.reverse ++ (List.range ⌈(finalv - start) / step⌉₊).map
          (fun n : ℕ => mkVolume unit (start + (n : ℚ) * step))) := by
  induction fuel with
  | zero =>
    intro start k acc hfuel
    have h0 : ⌈(finalv - start) / step⌉₊ = 0 := Nat.le_zero.mp hfuel
    have hle : ¬ start < finalv := by
      intro hlt
      have hpos : 0 < (finalv - start) / step := div_pos (by linarith) hstep
      have := Nat.ceil_pos.mpr hpos
      omega
    simp [fadeLoopAsc, hle, h0]
  | succ fuel ih =>
    intro start k acc hfuel
    by_cases hlt : start < finalv
    · have hxpos : 0 < (finalv - start) / step := div_pos (by linarith) hstep
      have hsucc := natCeil_pred hxpos
      have hshift : (finalv - (start + step)) / step = (finalv - start) / step - 1 := by
        rw [show finalv - (start + step) = finalv - start - step by ring,
          sub_div, div_self hstep.ne']
      have hfuel' : ⌈(finalv - (start + step)) / step⌉₊ ≤ fuel := by
        rw [hshift]
        omega
      have hrec := ih (start + step) (k + 1) (mkVolume unit start :: acc) hfuel'
      simp only [fadeLoopAsc, if_pos hlt, packagedVolume_eq hu, hor]
      rw [hrec, hshift, hsucc, List.range_succ_eq_map]
      simp only [List.map_cons, List.map_map, List.reverse_cons, List.append_assoc,
        List.cons_append, List.nil_append, Nat.cast_zero, zero_mul, add_zero]
      refine congrArg _ (congrArg _ (congrArg _ ?_))
      apply List.map_congr_left
      intro n _
      simp only [Function.comp_apply]
      congr 1
      push_cast
      ring
    · have h0 : ⌈(finalv - start) / step⌉₊ = 0 := by
        refine Nat.ceil_eq_zero.mpr ?_
        exact div_nonpos_iff.mpr (Or.inr ⟨by linarith, hstep.le⟩)
      simp [fadeLoopAsc, hlt, h0]

/-- Behaviour of the descending loop when the first `j` remote calls (counted
from the loop's starting call index `k`) succeed and call `j` is rejected while
the loop guard still holds: the loop stops at the rejected call, having issued
exactly `j + 1` calls, and surfaces the fixed context string with the remote
cause. -/
lemma fadeLoopDesc_fail (input : String) {unit : String}
    (hu : unit = "db" ∨ unit = "perc") (finalv : ℚ) {step : ℚ} (hstep : 0 < step)
    (oracle : ℕ → Option String) (cause : String) :
    ∀ (j : ℕ) (start : ℚ) (k : ℕ) (acc : List Volume) (fuel : ℕ),
      (∀ i, i < j → oracle (k + i) = none) → oracle (k + j) = some cause →
      (j : ℚ) * step < start - finalv → j < fuel →
      fadeLoopDesc input unit finalv step oracle fuel start k acc =
        .rpcError (acc.reverse ++ (List.range (j + 1)).map
            (fun n : ℕ => mkVolume unit (start - (n : ℚ) * step)))
          ("set-volume " ++ input) cause := by
  intro j
  induction j with
  | zero =>
    intro start k acc fuel hok hfail hj hfuel
    obtain ⟨fuel, rfl⟩ : ∃ f, fuel = f + 1 := ⟨fuel - 1, by omega⟩
    have hlt : finalv < start := by
      simp only [Nat.cast_zero, zero_mul] at hj
      linarith
    simp only [Nat.add_zero] at hfail
    simp [fadeLoopDesc, if_pos hlt, packagedVolume_eq hu, hfail, List.range_succ, List.range_zero]
  | succ j ihj =>
    intro start k acc fuel hok hfail hj hfuel
    obtain ⟨fuel, rfl⟩ : ∃ f, fuel = f + 1 := ⟨fuel - 1, by omega⟩
    have hjq : (0 : ℚ) ≤ (j + 1 : ℕ) * step := by positivity
    have hlt : finalv < start := by
      push_cast at hj hjq
      linarith
    have hok0 : oracle k = none := by
      have := hok 0 (Nat.succ_pos j)
      simpa using this
    have hok' : ∀ i, i < j → oracle (k + 1 + i) = none := by
      intro i hi
      have := hok (i + 1) (by omega)
      rwa [show k + (i + 1) = k + 1 + i by omega] at this
    have hfail' : oracle (k + 1 + j) = some cause := by
      rwa [show k + (j + 1) = k + 1 + j by omega] at hfail
    have hj' : (j : ℚ) * step < start - step - finalv := by
      push_cast at hj
      linarith
    have hrec := ihj (start - step) (k + 1) (mkVolume unit start :: acc) fuel
      hok' hfail' hj' (by omega)
    simp only [fadeLoopDesc, if_pos hlt, packagedVolume_eq hu, hok0]
    rw [hrec, List.range_succ_eq_map (j + 1)]
    simp only [List.map_cons, List.map_map, List.reverse_cons, List.append_assoc,
      List.cons_append, List.nil_append, Nat.cast_zero, zero_mul, sub_zero]
    refine congrArg (fun l => RunResult.rpcError l ("set-volume " ++ input) cause)
      (congrArg _ (congrArg _ ?_))
    apply List.map_congr_left
    intro n _
    simp only [Function.comp_apply]
    congr 1
    push_cast
    ring

/-- Ascending counterpart of `fadeLoopDesc_fail`. -/
lemma fadeLoopAsc_fail (input : String) {unit : String}
    (hu : unit = "db" ∨ unit = "perc") (finalv : ℚ) {step : ℚ} (hstep : 0 < step)
    (oracle : ℕ → Option String) (cause : String) :
    ∀ (j : ℕ) (start : ℚ) (k : ℕ) (acc : List Volume) (fuel : ℕ),
      (∀ i, i < j → oracle (k + i) = none) → oracle (k + j) = some cause →
      (j : ℚ) * step < finalv - start → j < fuel →
      fadeLoopAsc input unit finalv step oracle fuel start k acc =
        .rpcError (acc.reverse ++ (List.range (j + 1)).map
            (fun n : ℕ => mkVolume unit (start + (n : ℚ) * step)))
          ("set-volume " ++ input) cause := by
  intro j
  induction j with
  | zero =>
    intro start k acc fuel hok hfail hj hfuel
    obtain ⟨fuel, rfl⟩ : ∃ f, fuel = f + 1 := ⟨fuel - 1, by omega⟩
    have hlt : start < finalv := by
      simp only [Nat.cast_zero, zero_mul] at hj
      linarith
    simp only [Nat.add_zero] at hfail
    simp [fadeLoopAsc, if_pos hlt, packagedVolume_eq hu, hfail, List.range_succ, List.range_zero]
  | succ j ihj =>
    intro start k acc fuel hok hfail hj hfuel
    obtain ⟨fuel, rfl⟩ : ∃ f, fuel = f + 1 := ⟨fuel - 1, by omega⟩
    have hjq : (0 : ℚ) ≤ (j + 1 : ℕ) * step := by positivity
    have hlt : start < finalv := by
      push_cast at hj hjq
      linarith
    have hok0 : oracle k = none := by
      have := hok 0 (Nat.succ_pos j)
      simpa using this
    have hok' : ∀ i, i < j → oracle (k + 1 + i) = none := by
      intro i hi
      have := hok (i + 1) (by omega)
      rwa [show k + (i + 1) = k + 1 + i by omega] at this
    have hfail' : oracle (k + 1 + j) = some cause := by
      rwa [show k + (j + 1) = k + 1 + j by omega] at hfail
    have hj' : (j : ℚ) * step < finalv - (start + step) := by
      push_cast at hj
      linarith
    have hrec := ihj (start + step) (k + 1) (mkVolume unit start :: acc) fuel
      hok' hfail' hj' (by omega)
    simp only [fadeLoopAsc, if_pos hlt, packagedVolume_eq hu, hok0]
    rw [hrec, List.range_succ_eq_map (j + 1)]
    simp only [List.map_cons, List.map_map, List.reverse_cons, List.append_assoc,
      List.cons_append, List.nil_append, Nat.cast_zero, zero_mul, add_zero]
    refine congrArg (fun l => RunResult.rpcError l ("set-volume " ++ input) cause)
      (congrArg _ (congrArg _ ?_))
    apply List.map_congr_left
    intro n _
    simp only [Function.comp_apply]
    congr 1
    push_cast
    ring

/-- With a unit tag actually produced by the parser, the descending loop can
never reach the `panic!()` fallthrough arm, whatever the oracle does. -/
lemma fadeLoopDesc_ne_panicked (input : String) {unit : String}
    (hu : unit = "db" ∨ unit = "perc") (finalv step : ℚ)
    (oracle : ℕ → Option String) :
    ∀ (fuel : ℕ) (start : ℚ) (k : ℕ) (acc l : List Volume),
      fadeLoopDesc input unit finalv step oracle fuel start k acc ≠ .panicked l := by
  intro fuel
  induction fuel with
  | zero =>
    intro start k acc l
    by_cases h : finalv < start <;> simp [fadeLoopDesc, h]
  | succ fuel ih =>
    intro start k acc l
    by_cases h : finalv < start
    · simp only [fadeLoopDesc, if_pos h, packagedVolume_eq hu]
      rcases ho : oracle k with _ | cause
      · simp only [ho]
        exact ih _ _ _ _
      · simp [ho]
    · simp [fadeLoopDesc, h]

/-- Ascending counterpart of `fadeLoopDesc_ne_panicked`. -/
lemma fadeLoopAsc_ne_panicked (input : String) {unit : String}
    (hu : unit = "db" ∨ unit = "perc") (finalv step : ℚ)
    (oracle : ℕ → Option String) :
    ∀ (fuel : ℕ) (start : ℚ) (k : ℕ) (acc l : List Volume),
      fadeLoopAsc input unit finalv step oracle fuel start k acc ≠ .panicked l := by
  intro fuel
  induction fuel with
  | zero =>
    intro start k acc l
    by_cases h : start < finalv <;> simp [fadeLoopAsc, h]
  | succ fuel ih =>
    intro start k acc l
    by_cases h : start < finalv
    · simp only [fadeLoopAsc, if_pos h, packagedVolume_eq hu]
      rcases ho : oracle k with _ | cause
      · simp only [ho]
        exact ih _ _ _ _
      · simp [ho]
    · simp [fadeLoopAsc, h]

/-- With a nonpositive step — the source computes one for a negative duration —
the ascending loop's guard never turns false: every fuel amount is exhausted,
i.e. the source loop runs forever. -/
lemma fadeLoopAsc_noFuel (input : String) {unit : String}
    (hu : unit = "db" ∨ unit = "perc") (finalv : ℚ) {step : ℚ} (hstep : step ≤ 0)
    {oracle : ℕ → Option String} (hor : ∀ i, oracle i = none) :
    ∀ (fuel : ℕ) (start : ℚ) (k : ℕ) (acc : List Volume), start < finalv →
      ∃ l, fadeLoopAsc input unit finalv step oracle fuel start k acc = .noFuel l := by
  intro fuel
  induction fuel with
  | zero =>
    intro start k acc hlt
    exact ⟨acc.reverse, by simp [fadeLoopAsc, hlt]⟩
  | succ fuel ih =>
    intro start k acc hlt
    have hlt' : start + step < finalv := by linarith
    obtain ⟨l, hl⟩ := ih (start + step) (k + 1) (mkVolume unit start :: acc) hlt'
    refine ⟨l, ?_⟩
    simp only [fadeLoopAsc, if_pos hlt, packagedVolume_eq hu, hor]
    exact hl

/-- Closed form of a whole `FadeInput` run when the volume string parses, the
duration parses to a positive value, the fade is not a no-op, and every remote
call succeeds: the run returns `ok` after issuing exactly `⌈60·d⌉` calls, the
`n`-th at the interim value `current + n·step` where the signed step is
`(finalv - current) / (60·d)`. -/
lemma fadeInput_ok_closed_form {input volume duration : String} {cur_db cur_mul : ℚ}
    {finalv current : ℚ} {unit : String} {d : ℚ} {oracle : ℕ → Option String}
    (hor : ∀ i, oracle i = none)
    (hparse : fadeVolumeParse volume cur_db cur_mul = .ok (finalv, current, unit))
    (hd : parseF32 duration = some d) (hdpos : 0 < d) (hne : current ≠ finalv)
    (fuel : ℕ) (hfuel : ⌈60 * d⌉₊ ≤ fuel) :
    fadeInput input volume duration cur_db cur_mul oracle fuel =
      .ok ((List.range ⌈60 * d⌉₊).map
        (fun n : ℕ => mkVolume unit (current + (n : ℚ) * ((finalv - current) / (60 * d))))) := by
  have hu := fadeVolumeParse_unit hparse
  have h60 : (0 : ℚ) < 60 * d := by positivity
  rcases lt_or_gt_of_ne hne with hlt | hgt
  · have hstep : 0 < (finalv - current) / (60 * d) := div_pos (by linarith) h60
    have hN : (finalv - current) / ((finalv - current) / (60 * d)) = 60 * d := by
      have hDne : finalv - current ≠ 0 := sub_ne_zero.mpr (Ne.symm hne)
      field_simp
    have hnot : ¬ finalv < current := by linarith
    have hloop := fadeLoopAsc_ok input hu finalv hstep hor fuel current 0 []
      (by rw [hN]; exact hfuel)
    simp only [fadeInput, hparse, hd, fadeTickDivisorHz, if_neg hnot]
    rw [hloop, hN]
    simp
  · have hstep : 0 < (current - finalv) / (60 * d) := div_pos (by linarith) h60
    have hN : (current - finalv) / ((current - finalv) / (60 * d)) = 60 * d := by
      have hDne : current - finalv ≠ 0 := sub_ne_zero.mpr hne
      field_simp
    have hloop := fadeLoopDesc_ok input hu finalv hstep hor fuel current 0 []
      (by rw [hN]; exact hfuel)
    simp only [fadeInput, hparse, hd, fadeTickDivisorHz, if_pos hgt]
    rw [hloop, hN]
    simp only [List.reverse_nil, List.nil_append]
    refine congrArg _ ?_
    apply List.map_congr_left
    intro n _
    congr 1
    ring

/-- Closed form of a whole `FadeInput` run whose `j`-th remote call (0-based)
is rejected before the loop would have finished: the run stops at that call,
having issued exactly `j + 1` calls, and surfaces the anyhow context
`"set-volume " ++ input` with the remote cause — a message that does not
depend on `j`. -/
lemma fadeInput_fail_closed_form {input volume duration : String} {cur_db cur_mul : ℚ}
    {finalv current : ℚ} {unit : String} {d : ℚ} {oracle : ℕ → Option String}
    (j : ℕ) (cause : String)
    (hok : ∀ i, i < j → oracle i = none) (hfail : oracle j = some cause)
    (hparse : fadeVolumeParse volume cur_db cur_mul = .ok (finalv, current, unit))
    (hd : parseF32 duration = some d) (hdpos : 0 < d) (hne : current ≠ finalv)
    (hj : j < ⌈60 * d⌉₊) (fuel : ℕ) (hfuel : j < fuel) :
    fadeInput input volume duration cur_db cur_mul oracle fuel =
      .rpcError ((List.range (j + 1)).map
          (fun n : ℕ => mkVolume unit (current + (n : ℚ) * ((finalv - current) / (60 * d)))))
        ("set-volume " ++ input) cause := by
  have hu := fadeVolumeParse_unit hparse
  have h60 : (0 : ℚ) < 60 * d := by positivity
  have hjq : ((j : ℚ)) < 60 * d := by exact_mod_cast Nat.lt_ceil.mp hj
  have hok' : ∀ i, i < j → oracle (0 + i) = none := by simpa using hok
  have hfail' : oracle (0 + j) = some cause := by simpa using hfail
  rcases lt_or_gt_of_ne hne with hlt | hgt
  · have hstep : 0 < (finalv - current) / (60 * d) := div_pos (by linarith) h60
    have hnot : ¬ finalv < current := by linarith
    have hjstep : (j : ℚ) * ((finalv - current) / (60 * d)) < finalv - current := by
      calc (j : ℚ) * ((finalv - current) / (60 * d))
          < (60 * d) * ((finalv - current) / (60 * d)) :=
            mul_lt_mul_of_pos_right hjq hstep
        _ = finalv - current := by field_simp
    have hloop := fadeLoopAsc_fail input hu finalv hstep oracle cause j current 0 [] fuel
      hok' hfail' hjstep hfuel
    simp only [fadeInput, hparse, hd, fadeTickDivisorHz, if_neg hnot]
    rw [hloop]
    simp
  · have hstep : 0 < (current - finalv) / (60 * d) := div_pos (by linarith) h60
    have hjstep : (j : ℚ) * ((current - finalv) / (60 * d)) < current - finalv := by
      calc (j : ℚ) * ((current - finalv) / (60 * d))
          < (60 * d) * ((current - finalv) / (60 * d)) :=
            mul_lt_mul_of_pos_right hjq hstep
        _ = current - finalv := by field_simp
    have hloop := fadeLoopDesc_fail input hu finalv hstep oracle cause j current 0 [] fuel
      hok' hfail' hjstep hfuel
    simp only [fadeInput, hparse, hd, fadeTickDivisorHz, if_pos hgt]
    rw [hloop]
    simp only [List.reverse_nil, List.nil_append]
    refine congrArg (fun l => RunResult.rpcError l ("set-volume " ++ input) cause) ?_
    apply List.map_congr_left
    intro n _
    congr 1
    ring

/-! ## Claim C1 -/

unseal Rat.add Rat.mul Rat.inv Rat.sub in
/-- C1: the claim says every fade-input invocation with a non-numeric or
nonpositive duration is rejected with a typed error before any remote
`set_volume` call, with no panic, no division by zero, and no infinite loop.
The code does the opposite: `duration.parse::<f32>().unwrap()` (lines 169/187)
panics on a non-numeric duration such as `"abc"`, and for a negative duration
such as `"-1"` the computed step points away from the target, so the loop
guard never turns false and the loop runs forever (exhausts every fuel
amount).  This theorem evaluates the embedded code at both failing inputs
(current multiplier volume 0.2, target `"50%"`). -/
theorem C1_invalid_duration_bug :
    fadeInput "Mic/Aux" "50%" "abc" 0 (1/5) (fun _ => none) 1000 = .panicked [] ∧
    ∀ fuel : ℕ, ∃ l, fadeInput "Mic/Aux" "50%" "-1" 0 (1/5) (fun _ => none) fuel =
      .noFuel l := by
  constructor
  · decide
  · intro fuel
    have hparse : fadeVolumeParse "50%" 0 (1/5) = .ok (1/2, 1/5, "perc") := by decide
    have hd : parseF32 "-1" = some (-1) := by decide
    have hnot : ¬ (1 : ℚ)/2 < 1/5 := by norm_num
    have hstep : ((1 : ℚ)/2 - 1/5) / (fadeTickDivisorHz * (-1)) ≤ 0 := by
      rw [fadeTickDivisorHz]
      norm_num
    obtain ⟨l, hl⟩ := fadeLoopAsc_noFuel "Mic/Aux" (Or.inr rfl) (1/2) hstep
      (fun _ => rfl) fuel (1/5) 0 [] (by norm_num)
    refine ⟨l, ?_⟩
    simp only [fadeInput, hparse, hd, if_neg hnot]
    exact hl

/-! ## Claim C2 -/

unseal Rat.add Rat.mul Rat.inv Rat.sub in
/-- C2 counterexample: the claim says the last remote `set_volume` call of a
fade sets exactly the target value (a snap-to-target call).  Concretely:
current multiplier volume 0.5, target `"0%"` (i.e. 0), duration 0.05 s; the
run issues calls at 1/2, 1/3, 1/6 and stops — the last call sets 1/6, not the
target 0, and no snap call follows. -/
theorem C2_no_snap_counterexample :
    fadeInput "Mic/Aux" "0%" "0.05" 0 (1/2) (fun _ => none) 10 =
      .ok [Volume.Mul (1/2), Volume.Mul (1/3), Volume.Mul (1/6)] ∧
    Volume.Mul (1/6) ≠ Volume.Mul 0 := by
  constructor
  · decide
  · decide

/-- C2 amended: for every fade with `current ≠ target` and positive parsed
duration (all remote calls succeeding), the last `set_volume` call sets the
last interim value: it is within one `|step|` of the target but **never**
equal to it — the code has no final snap-to-target call. -/
theorem C2_amended_last_call {input volume duration : String} {cur_db cur_mul : ℚ}
    {finalv current : ℚ} {unit : String} {d : ℚ} {oracle : ℕ → Option String}
    (hor : ∀ i, oracle i = none)
    (hparse : fadeVolumeParse volume cur_db cur_mul = .ok (finalv, current, unit))
    (hd : parseF32 duration = some d) (hdpos : 0 < d) (hne : current ≠ finalv)
    (fuel : ℕ) (hfuel : ⌈60 * d⌉₊ ≤ fuel) :
    ∃ (calls : List Volume) (v : ℚ),
      fadeInput input volume duration cur_db cur_mul oracle fuel = .ok calls ∧
      calls.getLast? = some (mkVolume unit v) ∧
      v ≠ finalv ∧
      |v - finalv| ≤ |(finalv - current) / (60 * d)| := by
  have h60 : (0 : ℚ) < 60 * d := by positivity
  have hN : 0 < ⌈60 * d⌉₊ := Nat.ceil_pos.mpr h60
  obtain ⟨M, hM⟩ : ∃ M, ⌈60 * d⌉₊ = M + 1 := ⟨⌈60 * d⌉₊ - 1, by omega⟩
  have hMlt : (M : ℚ) < 60 * d := by
    have h1 : (⌈60 * d⌉₊ : ℚ) < 60 * d + 1 := Nat.ceil_lt_add_one h60.le
    rw [hM] at h1
    push_cast at h1
    linarith
  have h60le : 60 * d ≤ (M : ℚ) + 1 := by
    have h2 := Nat.le_ceil (60 * d)
    rw [hM] at h2
    push_cast at h2
    linarith
  have hD : finalv - current ≠ 0 := sub_ne_zero.mpr (Ne.symm hne)
  have hveq : current + (M : ℚ) * ((finalv - current) / (60 * d)) - finalv =
      (finalv - current) * (((M : ℚ) - 60 * d) / (60 * d)) := by
    field_simp
    ring
  refine ⟨_, current + (M : ℚ) * ((finalv - current) / (60 * d)),
    fadeInput_ok_closed_form hor hparse hd hdpos hne fuel hfuel, ?_, ?_, ?_⟩
  · rw [hM, List.range_succ, List.map_append]
    simp
  · intro hcon
    have hzero : current + (M : ℚ) * ((finalv - current) / (60 * d)) - finalv = 0 := by
      rw [hcon]
      ring
    rw [hveq] at hzero
    rcases mul_eq_zero.mp hzero with h | h
    · exact hD h
    · have : ((M : ℚ) - 60 * d) / (60 * d) ≠ 0 :=
        div_ne_zero (by linarith) (ne_of_gt h60)
      exact this h
  · rw [hveq, abs_mul, abs_div, abs_of_pos h60,
      abs_of_neg (show (M : ℚ) - 60 * d < 0 by linarith), neg_sub,
      abs_div, abs_of_pos h60]
    calc |finalv - current| * ((60 * d - (M : ℚ)) / (60 * d))
        ≤ |finalv - current| * (1 / (60 * d)) := by
          refine mul_le_mul_of_nonneg_left ?_ (abs_nonneg _)
          refine (div_le_div_iff_of_pos_right h60).mpr ?_
          linarith
      _ = |finalv - current| / (60 * d) := by
          rw [mul_one_div]

unseal Rat.add Rat.mul Rat.inv Rat.sub in
/-- C2 witness: the amended statement at the counterexample's inputs. -/
theorem C2_amended_witness :
    ∃ (calls : List Volume) (v : ℚ),
      fadeInput "Mic/Aux" "0%" "0.05" 0 (1/2) (fun _ => none) 10 = .ok calls ∧
      calls.getLast? = some (mkVolume "perc" v) ∧
      v ≠ 0 ∧
      |v - 0| ≤ |((0 : ℚ) - 1/2) / (60 * (1/20))| :=
  @C2_amended_last_call "Mic/Aux" "0%" "0.05" 0 (1/2) 0 (1/2) "perc" (1/20)
    (fun _ => none) (fun _ => rfl) (by decide) (by decide) (by norm_num)
    (by norm_num) 10
    (by rw [show (60 : ℚ) * (1/20) = 3 by norm_num]; simp)

/-! ## Claim C3 -/

unseal Rat.add Rat.mul Rat.inv Rat.sub in
/-- C3 counterexample: the claim says the error surfaced on a rejected
`set_volume` names the tick index at which the failure occurred.  The code's
error is `.context(format!("set-volume {input}"))?` — it carries no tick
index: a rejection at tick 1 and a rejection at tick 2 surface the identical
context and cause, so the error cannot name the tick. -/
theorem C3_error_lacks_tick_counterexample :
    (fadeInput "Mic/Aux" "0%" "0.5" 0 1 (fun i => if i = 1 then some "boom" else none) 1000 =
      .rpcError [Volume.Mul 1, Volume.Mul (29/30)] "set-volume Mic/Aux" "boom") ∧
    (fadeInput "Mic/Aux" "0%" "0.5" 0 1 (fun i => if i = 2 then some "boom" else none) 1000 =
      .rpcError [Volume.Mul 1, Volume.Mul (29/30), Volume.Mul (14/15)] "set-volume Mic/Aux" "boom") := by
  constructor
  · decide
  · decide

/-- C3 amended: when the `j`-th remote call (0-based) of a fade is rejected
while the loop is still running, the fade aborts at once — exactly `j + 1`
calls were issued, with no retry — and the surfaced error is the fixed anyhow
context `"set-volume " ++ input` with the remote cause; the tick index is not
part of the error. -/
theorem C3_amended_abort_without_tick {input volume duration : String}
    {cur_db cur_mul : ℚ} {finalv current : ℚ} {unit : String} {d : ℚ}
    {oracle : ℕ → Option String} (j : ℕ) (cause : String)
    (hok : ∀ i, i < j → oracle i = none) (hfail : oracle j = some cause)
    (hparse : fadeVolumeParse volume cur_db cur_mul = .ok (finalv, current, unit))
    (hd : parseF32 duration = some d) (hdpos : 0 < d) (hne : current ≠ finalv)
    (hj : j < ⌈60 * d⌉₊) (fuel : ℕ) (hfuel : j < fuel) :
    ∃ calls : List Volume,
      fadeInput input volume duration cur_db cur_mul oracle fuel =
        .rpcError calls ("set-volume " ++ input) cause ∧
      calls.length = j + 1 :=
  ⟨_, fadeInput_fail_closed_form j cause hok hfail hparse hd hdpos hne hj fuel hfuel,
    by simp⟩

unseal Rat.add Rat.mul Rat.inv Rat.sub in
/-- C3 witness: failure injected at tick 2 of a 30-tick fade. -/
theorem C3_amended_witness :
    ∃ calls : List Volume,
      fadeInput "Mic/Aux" "0%" "0.5" 0 1 (fun i => if i = 2 then some "boom" else none) 1000 =
        .rpcError calls ("set-volume " ++ "Mic/Aux") "boom" ∧
      calls.length = 2 + 1 :=
  @C3_amended_abort_without_tick "Mic/Aux" "0%" "0.5" 0 1 0 1 "perc" (1/2)
    (fun i => if i = 2 then some "boom" else none) 2 "boom" (by decide) (by decide)
    (by decide) (by decide) (by norm_num) (by norm_num)
    (by rw [show (60 : ℚ) * (1/2) = 30 by norm_num]; simp)
    1000 (by norm_num)

/-! ## Claim C4 -/

unseal Rat.add Rat.mul Rat.inv Rat.sub in
/-- C4: the claim says the trailing-"db" check is case-insensitive and
identical in the fade path and the one-shot set-volume path, with
`parse("-6dB") = Decibel(-6.0)` in both.  The fade path (line 153) strips
`"db"` from the lower-cased string and indeed yields the decibel scale with
value −6; but the set-volume path (line 213) strips the literal `"dB"` from
the **already lower-cased** string — a suffix a lower-cased string can never
have — so its decibel branch is dead and `"-6dB"` falls through to the
percentage branch, failing with `"invalid % volume change"` instead of
producing `Decibel(-6)`.  The bare-number and percent examples still agree. -/
theorem C4_setvolume_db_branch_dead :
    fadeVolumeParse "-6dB" 0 (1/5) = .ok (-6, 0, "db") ∧
    setVolumeParse "-6dB" = .error "invalid % volume change" ∧
    setVolumeParse "150" = .ok (.Mul (3/2)) ∧
    setVolumeParse "50%" = .ok (.Mul (1/2)) ∧
    setVolumeParse "abcdB" = .error "invalid % volume change" := by
  refine ⟨by decide, by decide, by decide, by decide, by decide⟩

/-! ## Claim C5 -/

unseal Rat.add Rat.mul Rat.inv Rat.sub in
/-- C5 counterexample: the claim says each tick first advances the interim
value by `step` and then calls `set_volume`, so the first call sets
`current + step`.  The code does the opposite (lines 170-182: call first,
then advance): with current multiplier 0.5, target `"100%"`, duration 0.05 s
(step 1/6), the calls are 1/2, 2/3, 5/6 — the first call re-sets the pre-fade
current 1/2, not `current + step = 2/3`. -/
theorem C5_first_call_counterexample :
    fadeInput "Mic/Aux" "100%" "0.05" 0 (1/2) (fun _ => none) 10 =
      .ok [Volume.Mul (1/2), Volume.Mul (2/3), Volume.Mul (5/6)] ∧
    Volume.Mul (1/2) ≠ Volume.Mul (1/2 + 1/6) := by
  constructor
  · decide
  · decide

/-- C5 amended: each tick issues `set_volume` at the current interim value and
only then advances it by `step`; in particular the first remote call of every
fade re-sets the pre-fade current volume (a zero-effect call). -/
theorem C5_amended_sets_then_advances {input volume duration : String}
    {cur_db cur_mul : ℚ} {finalv current : ℚ} {unit : String} {d : ℚ}
    {oracle : ℕ → Option String} (hor : ∀ i, oracle i = none)
    (hparse : fadeVolumeParse volume cur_db cur_mul = .ok (finalv, current, unit))
    (hd : parseF32 duration = some d) (hdpos : 0 < d) (hne : current ≠ finalv)
    (fuel : ℕ) (hfuel : ⌈60 * d⌉₊ ≤ fuel) :
    ∃ calls : List Volume,
      fadeInput input volume duration cur_db cur_mul oracle fuel = .ok calls ∧
      calls.head? = some (mkVolume unit current) := by
  refine ⟨_, fadeInput_ok_closed_form hor hparse hd hdpos hne fuel hfuel, ?_⟩
  have hN : 0 < ⌈60 * d⌉₊ := Nat.ceil_pos.mpr (by positivity)
  obtain ⟨M, hM⟩ : ∃ M, ⌈60 * d⌉₊ = M + 1 := ⟨⌈60 * d⌉₊ - 1, by omega⟩
  rw [hM, List.range_succ_eq_map]
  simp

unseal Rat.add Rat.mul Rat.inv Rat.sub in
/-- C5 witness: the amended statement at the counterexample's inputs. -/
theorem C5_amended_witness :
    ∃ calls : List Volume,
      fadeInput "Mic/Aux" "100%" "0.05" 0 (1/2) (fun _ => none) 10 = .ok calls ∧
      calls.head? = some (mkVolume "perc" (1/2)) :=
  @C5_amended_sets_then_advances "Mic/Aux" "100%" "0.05" 0 (1/2) 1 (1/2) "perc" (1/20)
    (fun _ => none) (fun _ => rfl) (by decide) (by decide) (by norm_num)
    (by norm_num) 10
    (by rw [show (60 : ℚ) * (1/20) = 3 by norm_num]; simp)

/-! ## Claim C6 -/

/-- C6: a fade whose current volume (read in the target's scale) equals the
target value issues zero remote `set_volume` calls and returns success: the
direction match takes its `false` arm and the ascending loop's guard is
already false at entry, so the loop body never runs. -/
theorem C6_equal_target_is_noop {input volume duration : String}
    {cur_db cur_mul : ℚ} {finalv current : ℚ} {unit : String} {d : ℚ}
    (oracle : ℕ → Option String) (fuel : ℕ)
    (hparse : fadeVolumeParse volume cur_db cur_mul = .ok (finalv, current, unit))
    (hd : parseF32 duration = some d) (heq : current = finalv) :
    fadeInput input volume duration cur_db cur_mul oracle fuel = .ok [] := by
  subst heq
  simp only [fadeInput, hparse, hd, if_neg (lt_irrefl current)]
  cases fuel <;> simp [fadeLoopAsc, lt_irrefl]

unseal Rat.add Rat.mul Rat.inv Rat.sub in
/-- C6 witness: current multiplier volume 0.2 and target `"20%"` coincide; no
call is issued. -/
theorem C6_witness :
    fadeInput "Mic/Aux" "20%" "5" 0 (1/5) (fun _ => none) 7 = .ok [] :=
  @C6_equal_target_is_noop "Mic/Aux" "20%" "5" 0 (1/5) (1/5) (1/5) "perc" 5
    (fun _ => none) 7 (by decide) (by decide) rfl

/-! ## Claim C7 -/

/-- C7: for every valid fade (parsed volume, positive parsed duration,
`current ≠ target`, all remote calls succeeding) the loop terminates after
exactly `⌈60·d⌉` ticks — within the claimed bound `⌈d·60⌉ + 1` — and the
`n`-th call's interim value is `current + n·step` for the nonzero signed step
`(target − current)/(60·d)`: every tick moves the interim value by exactly one
step toward the target. -/
theorem C7_terminates_within_bound {input volume duration : String}
    {cur_db cur_mul : ℚ} {finalv current : ℚ} {unit : String} {d : ℚ}
    {oracle : ℕ → Option String} (hor : ∀ i, oracle i = none)
    (hparse : fadeVolumeParse volume cur_db cur_mul = .ok (finalv, current, unit))
    (hd : parseF32 duration = some d) (hdpos : 0 < d) (hne : current ≠ finalv)
    (fuel : ℕ) (hfuel : ⌈60 * d⌉₊ ≤ fuel) :
    fadeInput input volume duration cur_db cur_mul oracle fuel =
      .ok ((List.range ⌈60 * d⌉₊).map
        (fun n : ℕ => mkVolume unit (current + (n : ℚ) * ((finalv - current) / (60 * d))))) ∧
    ⌈60 * d⌉₊ ≤ ⌈d * 60⌉₊ + 1 ∧
    (finalv - current) / (60 * d) ≠ 0 := by
  refine ⟨fadeInput_ok_closed_form hor hparse hd hdpos hne fuel hfuel, ?_, ?_⟩
  · rw [mul_comm (60 : ℚ) d]
    exact Nat.le_succ _
  · exact div_ne_zero (sub_ne_zero.mpr (Ne.symm hne)) (by positivity)

unseal Rat.add Rat.mul Rat.inv Rat.sub in
/-- C7 witness: the spec's end-to-end scenario — current multiplier 0.2,
target `"50%"`, duration 2 s — runs exactly `⌈120⌉ = 120` ticks with step
`(0.5 − 0.2)/120 = 0.0025`. -/
theorem C7_witness :
    fadeInput "Mic/Aux" "50%" "2" 0 (1/5) (fun _ => none) 120 =
      .ok ((List.range ⌈(60 : ℚ) * 2⌉₊).map
        (fun n : ℕ => mkVolume "perc" (1/5 + (n : ℚ) * ((1/2 - 1/5) / (60 * 2))))) ∧
    ⌈(60 : ℚ) * 2⌉₊ ≤ ⌈(2 : ℚ) * 60⌉₊ + 1 ∧
    ((1 : ℚ)/2 - 1/5) / (60 * 2) ≠ 0 :=
  @C7_terminates_within_bound "Mic/Aux" "50%" "2" 0 (1/5) (1/2) (1/5) "perc" 2
    (fun _ => none) (fun _ => rfl) (by decide) (by decide) (by norm_num)
    (by norm_num) 120 (by rw [show (60 : ℚ) * 2 = 120 by norm_num]; simp)

/-! ## Claim C8 -/

/-- C8 counterexample: the claim says the scheduled tick interval equals
`1/TICK_RATE_HZ` seconds with `TICK_RATE_HZ = 60`, the same rate used for the
step.  The code schedules `Duration::from_millis(16)`: 16 ms is not 1000/60 ms. -/
theorem C8_interval_counterexample :
    ((tickIntervalMillis : ℚ) / 1000) ≠ 1 / fadeTickDivisorHz := by
  rw [tickIntervalMillis, fadeTickDivisorHz]
  norm_num

/-- C8 amended: the scheduled interval is 16 ms — an effective tick rate of
62.5 Hz — while the per-tick step divides the volume difference by
`60·duration` (with no rounding); the scheduling rate and the step rate
differ. -/
theorem C8_amended_rates :
    tickIntervalMillis = 16 ∧ fadeTickDivisorHz = 60 ∧
    (tickIntervalMillis : ℚ) / 1000 = 1 / (125/2) ∧
    (125/2 : ℚ) ≠ fadeTickDivisorHz :=
  ⟨rfl, rfl, by rw [tickIntervalMillis]; norm_num,
    by rw [fadeTickDivisorHz]; norm_num⟩

/-! ## Claim C9 -/

/-- C9: absence of the credential file does lead to a password-less attempt,
and a failing existence check does bail with a typed message; but the claim's
"file exists but cannot be read ⇒ typed error, never panics" is false on the
code: line 65 calls `.unwrap()` on `read_to_string`, which panics when the
file exists (`try_exists` returned `Ok(true)`) and the read then fails. -/
theorem C9_credential_read_unwrap_panics :
    resolveCredential (.ok true) (.error "Permission denied") = .panicked ∧
    (∀ readRes, resolveCredential (.ok false) readRes = .noPassword) ∧
    (∀ readRes e, resolveCredential (.error e) readRes =
      .bailed ("Failed to read OBS WebSocket password file: " ++ e)) :=
  ⟨rfl, fun _ => rfl, fun _ _ => rfl⟩

/-! ## Claim C10 -/

/-- C10: the `_ => panic!()` fallthrough arm of the unit match inside the fade
loop is unreachable: `current_unit` is assigned exactly once, before the loop,
and only ever to `"db"` or `"perc"` (first conjunct); consequently a
fade-input run whose duration string parses can never end in a panic — the
only other panic source is the duration `.unwrap()`, excluded by the
hypothesis (second conjunct, for every oracle and fuel). -/
theorem C10_unit_match_unreachable {input volume duration : String}
    {cur_db cur_mul : ℚ} (oracle : ℕ → Option String) (fuel : ℕ) {d : ℚ}
    (hd : parseF32 duration = some d) (l : List Volume) :
    (∀ finalv current unit,
      fadeVolumeParse volume cur_db cur_mul = .ok (finalv, current, unit) →
      unit = "db" ∨ unit = "perc") ∧
    fadeInput input volume duration cur_db cur_mul oracle fuel ≠ .panicked l := by
  constructor
  · intro _ _ _ h
    exact fadeVolumeParse_unit h
  · rcases hp : fadeVolumeParse volume cur_db cur_mul with msg | ⟨finalv, current, unit⟩
    · simp [fadeInput, hp]
    · have hu := fadeVolumeParse_unit hp
      by_cases hlt : finalv < current
      · simp only [fadeInput, hp, hd, if_pos hlt]
        exact fadeLoopDesc_ne_panicked input hu finalv _ oracle fuel current 0 [] l
      · simp only [fadeInput, hp, hd, if_neg hlt]
        exact fadeLoopAsc_ne_panicked input hu finalv _ oracle fuel current 0 [] l

unseal Rat.add Rat.mul Rat.inv Rat.sub in
/-- C10 witness: a concrete fade-input run with a parsing duration never
returns the panic outcome. -/
theorem C10_witness :
    fadeInput "Mic/Aux" "50%" "5" 0 (1/5) (fun _ => none) 1000 ≠ .panicked [] :=
  (@C10_unit_match_unreachable "Mic/Aux" "50%" "5" 0 (1/5) (fun _ => none) 1000 5
    (by decide) []).2

end ObsDo
